import Mathlib

/-!
Shallow embedding of the kidTests survey platform (a Next.js/Supabase client
application) and proofs about the claims of its specification.

Conventions of the embedding:
* Entity ids (uuids in the real store) are modelled as `String`.
* Timestamps (`created_at`, `published_at`) are modelled as `Int` milliseconds
  since the epoch, the value produced by JavaScript `new Date(s).getTime()`.
* Each Supabase query is modelled as the corresponding pure list operation on
  an explicit database state `DB`: `eq`/`in` filters become `List.filter`,
  `order(...)` becomes a sort with the comparator the store would use,
  `limit(1).maybeSingle()` becomes `head?`, `single()` demands exactly one
  row, inserts append rows, deletes filter rows out.
* JavaScript's `Array.prototype.sort` is specified to be a stable sort, so it
  is modelled by `List.insertionSort` (which is stable) with the comparator's
  "may precede" relation.
* JavaScript `trim`/`toLowerCase` are modelled over the character list at
  ASCII scope (`Char.isWhitespace`, `Char.toLower`).
* The random tokens the store or the client generates (`shortId()`, fresh
  `public_id`s, fresh row ids) are passed in as explicit parameters.
-/

namespace KidTests

/-- Question kinds, matching the `QuestionKind = 'SINGLE' | 'TEXT'` union. -/
inductive QuestionKind where
  | SINGLE
  | TEXT
deriving DecidableEq, Repr

/-- Row of the `tests` table. -/
structure TestRow where
  id : String
  slug : String
  title : String
  description : Option String
deriving DecidableEq, Repr

/-- Row of the `test_versions` table. -/
structure VersionRow where
  id : String
  test_id : String
  version : Int
  published_at : Option Int
deriving DecidableEq, Repr

/-- Row of the `questions` table. -/
structure QuestionRow where
  id : String
  test_version_id : String
  text : String
  kind : QuestionKind
  ord : Option Int
deriving DecidableEq, Repr

/-- Row of the `options` table. -/
structure OptionRow where
  id : String
  question_id : String
  text : String
  ord : Option Int
deriving DecidableEq, Repr

/-- Row of the `test_links` table. -/
structure TestLinkRow where
  id : String
  test_version_id : String
  public_id : String
  is_active : Bool
deriving DecidableEq, Repr

/-- Row of the `submissions` table. -/
structure SubmissionRow where
  id : String
  test_version_id : String
  participant : String
  created_at : Int
deriving DecidableEq, Repr

/-- Row of the `answers` table. -/
structure AnswerRow where
  submission_id : String
  question_id : String
  option_id : Option String
  free_text : Option String
deriving DecidableEq, Repr

/-- Full state of the relational store. -/
structure DB where
  tests : List TestRow
  test_versions : List VersionRow
  questions : List QuestionRow
  options : List OptionRow
  test_links : List TestLinkRow
  submissions : List SubmissionRow
  answers : List AnswerRow
deriving DecidableEq, Repr

/-- JavaScript `trim` over a character list: leading and trailing whitespace
removed. -/
def trimChars (l : List Char) : List Char :=
  ((l.dropWhile Char.isWhitespace).reverse.dropWhile Char.isWhitespace).reverse

/-- JavaScript `s.trim()`. -/
def trimString (s : String) : String :=
  String.mk (trimChars s.data)

/-- JavaScript `s.toLowerCase()` at ASCII scope. -/
def lowerString (s : String) : String :=
  String.mk (s.data.map Char.toLower)

/-! ### Slug generation (test authoring page, `createSlug`)

The source is
`title.trim().toLowerCase().replace(/[^a-z0-9\s-]/g, '').replace(/\s+/g, '-')`
followed by `-` and the random `shortId()` token. -/

/-- Character class kept by the regex `[^a-z0-9\s-]` replacement: lowercase
ASCII letters, ASCII digits, the hyphen, and whitespace survive. -/
def keepSlugChar (c : Char) : Bool :=
  ('a' ≤ c && c ≤ 'z') || ('0' ≤ c && c ≤ '9') || c = '-' || c.isWhitespace

/-- Replacement of `/\s+/g` by `'-'`: each maximal whitespace run becomes one
hyphen.  `prevWs` records whether the previous character was part of a
whitespace run already replaced. -/
def collapseWsAux : Bool → List Char → List Char
  | _, [] => []
  | prevWs, c :: rest =>
    if c.isWhitespace then
      (if prevWs then [] else ['-']) ++ collapseWsAux true rest
    else
      c :: collapseWsAux false rest

/-- Base part of `createSlug`: trim, lowercase, strip `[^a-z0-9\s-]`, then
replace whitespace runs by hyphens. -/
def slugBase (title : String) : String :=
  String.mk (collapseWsAux false (((trimChars title.data).map Char.toLower).filter keepSlugChar))

/-- Embedding of `createSlug`; the random `shortId()` suffix is the `token`
parameter. -/
def createSlug (title : String) (token : String) : String :=
  slugBase title ++ "-" ++ token

/-- Formalisation of claim C9's own wording: the title lowercased with all
non-alphanumeric characters stripped and spaces replaced by hyphens, then the
random suffix token. -/
def claimedSlugBase (title : String) : String :=
  String.mk ((title.data.map Char.toLower).filterMap (fun c =>
    if c.isAlphanum then some c else if c = ' ' then some '-' else none))

/-- Slug as claim C9 literally describes it. -/
def claimedSlug (title : String) (token : String) : String :=
  claimedSlugBase title ++ "-" ++ token

/-- Character class of the amended claim: ASCII lowercase letters, digits,
hyphens and whitespace survive the stripping. -/
def amendedKeep (c : Char) : Bool :=
  c.isLower || c.isDigit || c = '-' || c.isWhitespace

/-- Replacement of each maximal whitespace run by a single hyphen, phrased
directly from the amended claim's words: on meeting a whitespace character,
emit one hyphen and skip the rest of the run. -/
def squashWsRuns : List Char → List Char
  | [] => []
  | c :: rest =>
    if c.isWhitespace then '-' :: squashWsRuns (rest.dropWhile Char.isWhitespace)
    else c :: squashWsRuns rest
termination_by l => l.length
decreasing_by
· simp only [List.length_cons]
  exact Nat.lt_succ_of_le (List.dropWhile_sublist _).length_le
· simp only [List.length_cons]
  exact Nat.lt_succ_self _

/-- Slug base as the amended claim describes it. -/
def amendedSlugBase (title : String) : String :=
  String.mk (squashWsRuns (((trimChars title.data).map Char.toLower).filter amendedKeep))

theorem collapseWsAux_true_eq (l : List Char) :
    collapseWsAux true l = collapseWsAux false (l.dropWhile Char.isWhitespace) := by
  induction l with
  | nil => rfl
  | cons c rest ih =>
    by_cases hc : c.isWhitespace
    · simp [collapseWsAux, hc, List.dropWhile, ih]
    · simp [collapseWsAux, hc, List.dropWhile]

theorem squashWsRuns_eq (l : List Char) : squashWsRuns l = collapseWsAux false l := by
  induction l using squashWsRuns.induct with
  | case1 => rw [squashWsRuns]; rfl
  | case2 c rest hc ih =>
    rw [squashWsRuns, collapseWsAux]
    simp only [hc, if_pos, ih, collapseWsAux_true_eq]
    rfl
  | case3 c rest hc ih =>
    rw [squashWsRuns, collapseWsAux]
    simp [hc, ih]

theorem keepSlugChar_eq_amendedKeep (c : Char) : keepSlugChar c = amendedKeep c := by
  simp only [keepSlugChar, amendedKeep, Char.isLower, Char.isDigit]
  rfl

theorem slugBase_eq_amended (title : String) : slugBase title = amendedSlugBase title := by
  rw [slugBase, amendedSlugBase, squashWsRuns_eq,
    List.filter_congr (fun c _ => keepSlugChar_eq_amendedKeep c)]

theorem string_append_left_cancel {s t1 t2 : String} (h : s ++ t1 = s ++ t2) : t1 = t2 := by
  have hd := congrArg String.data h
  simp only [String.data_append] at hd
  exact congrArg String.mk (List.append_cancel_left hd)

/-- Claim C9 as stated fails on the code: for the accepted title `a-b` the code
keeps the hyphen (`a-b-<token>`), while the claim's transformation strips every
non-alphanumeric character and yields `ab-<token>`. -/
theorem createSlug_claim_counterexample :
    createSlug "a-b" "x1y2z3" ≠ claimedSlug "a-b" "x1y2z3" := by
  decide

/-- C9 (amended): for every title and suffix token, the created slug equals the
trimmed title lowercased with all characters other than ASCII lowercase letters,
digits, hyphens and whitespace removed and each maximal whitespace run replaced
by a single hyphen, followed by a hyphen and the random suffix token; for a
fixed title, distinct suffix tokens always yield distinct slugs. -/
theorem createSlug_amended_spec (title token : String) :
    createSlug title token = amendedSlugBase title ++ "-" ++ token ∧
    ∀ t1 t2 : String, createSlug title t1 = createSlug title t2 → t1 = t2 := by
  constructor
  · rw [createSlug, slugBase_eq_amended]
  · intro t1 t2 h
    rw [createSlug, createSlug] at h
    exact string_append_left_cancel h

/-- Witness for `createSlug_amended_spec` at a concrete title and pair of tokens. -/
theorem createSlug_amended_spec_witness :
    createSlug "Kid Tests" "aaa111" ≠ createSlug "Kid Tests" "bbb222" := fun h =>
  absurd ((createSlug_amended_spec "Kid Tests" "aaa111").2 "aaa111" "bbb222" h) (by decide)

/-! ### Statistics view: filtering, CSV export, recent-submissions table

Source: `TestStatsPage` (`filteredSubmissions`, `handleExportCsv`,
`latestSubmissions`).  The date inputs are `''` or a calendar day; a set bound
is modelled by the millisecond timestamp of that day's local midnight, so
`setHours(0,0,0,0)` is the value itself and `setHours(23,59,59,999)` is the
value plus `86399999`. -/

/-- Case-insensitive substring test `hay.toLowerCase().includes(term)`; the
`term` argument is already lower-cased by the caller. -/
def containsLowered (hay term : String) : Bool :=
  decide (term.data <:+: (lowerString hay).data)

/-- Predicate of the in-memory submission filter: optional inclusive date
range and participant substring match. -/
def passesFilters (dateFrom dateTo : Option Int) (pq : String) (s : SubmissionRow) : Bool :=
  (match dateFrom with
   | none => true
   | some d0 => decide (d0 ≤ s.created_at)) &&
  (match dateTo with
   | none => true
   | some d1 => decide (s.created_at ≤ d1 + 86399999)) &&
  (if trimString pq = "" then true
   else containsLowered s.participant (lowerString (trimString pq)))

/-- Embedding of the `filteredSubmissions` memo (including its early return on
an empty submission list). -/
def filteredSubmissions (subs : List SubmissionRow) (dateFrom dateTo : Option Int)
    (pq : String) : List SubmissionRow :=
  if subs.isEmpty then [] else subs.filter (passesFilters dateFrom dateTo pq)

theorem mem_filteredSubmissions (subs : List SubmissionRow) (dateFrom dateTo : Option Int)
    (pq : String) (s : SubmissionRow) :
    s ∈ filteredSubmissions subs dateFrom dateTo pq ↔
      s ∈ subs ∧ passesFilters dateFrom dateTo pq s = true := by
  rw [filteredSubmissions]
  by_cases h : subs.isEmpty
  · simp only [h, if_pos]
    rw [List.isEmpty_iff] at h
    simp [h]
  · simp [h, List.mem_filter]

/-- Claim C7: a loaded submission passes the filter iff its `created_at` lies
in the inclusive range from `dateFrom` local midnight to the last millisecond
of `dateTo` (each bound optional) and the participant matches; in particular a
submission at exactly 23:59:59 of `dateTo` is kept and one at 00:00:00 of the
next day is dropped. -/
theorem filteredSubmissions_date_spec (subs : List SubmissionRow)
    (dateFrom dateTo : Option Int) (pq : String) (s : SubmissionRow) :
    (s ∈ filteredSubmissions subs dateFrom dateTo pq ↔
      s ∈ subs ∧
      (∀ d0, dateFrom = some d0 → d0 ≤ s.created_at) ∧
      (∀ d1, dateTo = some d1 → s.created_at ≤ d1 + 86399999) ∧
      (trimString pq ≠ "" →
        containsLowered s.participant (lowerString (trimString pq)) = true)) ∧
    (∀ d1, dateTo = some d1 → s ∈ subs →
      (∀ d0, dateFrom = some d0 → d0 ≤ s.created_at) →
      (trimString pq ≠ "" →
        containsLowered s.participant (lowerString (trimString pq)) = true) →
      s.created_at = d1 + 86399000 →
      s ∈ filteredSubmissions subs dateFrom dateTo pq) ∧
    (∀ d1, dateTo = some d1 → s.created_at = d1 + 86400000 →
      s ∉ filteredSubmissions subs dateFrom dateTo pq) := by
  have key : s ∈ filteredSubmissions subs dateFrom dateTo pq ↔
      s ∈ subs ∧
      (∀ d0, dateFrom = some d0 → d0 ≤ s.created_at) ∧
      (∀ d1, dateTo = some d1 → s.created_at ≤ d1 + 86399999) ∧
      (trimString pq ≠ "" →
        containsLowered s.participant (lowerString (trimString pq)) = true) := by
    rw [mem_filteredSubmissions]
    cases dateFrom <;> cases dateTo <;>
      by_cases hpq : trimString pq = "" <;>
      (simp [passesFilters, hpq]; try tauto)
  refine ⟨key, ?_, ?_⟩
  · intro d1 hd1 hs h0 hp hexact
    exact key.mpr ⟨hs, h0, fun d hd => by
      rw [hd1] at hd
      cases hd
      omega, hp⟩
  · intro d1 hd1 hexact hmem
    have := (key.mp hmem).2.2.1 d1 hd1
    omega

/-- Fixture: submission timestamped exactly 23:59:59 of the epoch day. -/
def subAtEdge : SubmissionRow :=
  { id := "s1", test_version_id := "v1", participant := "Ivanov", created_at := 86399000 }

/-- Fixture: submission timestamped 00:00:00 of the day after the epoch day. -/
def subAfterEdge : SubmissionRow :=
  { id := "s2", test_version_id := "v1", participant := "Ivanov", created_at := 86400000 }

/-- Witness for `filteredSubmissions_date_spec`: a submission at exactly
23:59:59 of the `dateTo` day is kept, one at the next local midnight is not. -/
theorem filteredSubmissions_date_spec_witness :
    subAtEdge ∈ filteredSubmissions [subAtEdge, subAfterEdge] (some 0) (some 0) "" ∧
    subAfterEdge ∉ filteredSubmissions [subAtEdge, subAfterEdge] (some 0) (some 0) "" := by
  refine ⟨?_, ?_⟩
  · exact (filteredSubmissions_date_spec _ (some 0) (some 0) "" _).2.1 0 rfl
      (by decide) (fun d0 h => by cases h; decide) (fun h => absurd (by decide) h) rfl
  · exact (filteredSubmissions_date_spec _ (some 0) (some 0) "" _).2.2 0 rfl rfl

/-! ### CSV export (`handleExportCsv`) -/

/-- Embedding of `String(value).replace(/"/g, '""')`: every double quote is
doubled. -/
def escapeQuotes (s : String) : String :=
  String.mk (s.data.flatMap (fun c => if c = '"' then ['"', '"'] else [c]))

/-- One CSV field: the escaped value wrapped in double quotes. -/
def csvField (v : String) : String :=
  "\"" ++ escapeQuotes v ++ "\""

/-- One CSV line: the quoted fields joined by commas. -/
def csvLine (row : List String) : String :=
  String.intercalate "," (row.map csvField)

/-- Header row of the export. -/
def csvHeader : List String :=
  ["submission_id", "participant", "created_at"]

/-- Raw fields of one exported submission; `showTime` renders the stored
`created_at` string of the row. -/
def submissionCsvRow (showTime : Int → String) (s : SubmissionRow) : List String :=
  [s.id, s.participant, showTime s.created_at]

/-- Embedding of `handleExportCsv`'s CSV text construction over the filtered
submission set. -/
def exportCsv (showTime : Int → String) (filtered : List SubmissionRow) : String :=
  String.intercalate "\n" ((csvHeader :: filtered.map (submissionCsvRow showTime)).map csvLine)

theorem escapeQuotesList_of_no_quote (l : List Char) (h : '"' ∉ l) :
    l.flatMap (fun c => if c = '"' then ['"', '"'] else [c]) = l := by
  induction l with
  | nil => rfl
  | cons c rest ih =>
    simp only [List.mem_cons, not_or] at h
    rw [List.flatMap_cons, if_neg (fun hc => h.1 hc.symm), ih h.2]
    rfl

theorem escapeQuotes_of_no_quote (v : String) (h : '"' ∉ v.data) : escapeQuotes v = v := by
  rw [escapeQuotes, escapeQuotesList_of_no_quote v.data h]

/-- Claim C8: the export is the quoted header line followed by exactly one
quoted line per filtered submission; every field is wrapped in double quotes
with embedded quotes doubled, so `Jo"hn` becomes `"Jo""hn"`. -/
theorem exportCsv_spec (showTime : Int → String) (filtered : List SubmissionRow) :
    exportCsv showTime filtered =
      String.intercalate "\n"
        (csvLine csvHeader :: filtered.map (fun s => csvLine (submissionCsvRow showTime s))) ∧
    ((csvHeader :: filtered.map (submissionCsvRow showTime)).map csvLine).length =
      filtered.length + 1 ∧
    csvLine csvHeader = "\"submission_id\",\"participant\",\"created_at\"" ∧
    csvField "Jo\"hn" = "\"Jo\"\"hn\"" ∧
    (∀ v : String, (csvField v).data.head? = some '"' ∧ (csvField v).data.getLast? = some '"') ∧
    (∀ v : String, '"' ∉ v.data → csvField v = "\"" ++ v ++ "\"") := by
  refine ⟨?_, ?_, by decide, by decide, ?_, ?_⟩
  · rw [exportCsv, List.map_cons, List.map_map]
    rfl
  · simp
  · intro v
    constructor
    · rfl
    · show (("\"" ++ escapeQuotes v).data ++ "\"".data).getLast? = some '"'
      rw [List.getLast?_concat]
  · intro v h
    rw [csvField, escapeQuotes_of_no_quote v h]

/-- Witness for `exportCsv_spec` at a concrete filtered set, discharging the
no-quote hypothesis of the last conjunct at a concrete participant name. -/
theorem exportCsv_spec_witness :
    csvField "Jo\"hn" = "\"Jo\"\"hn\"" ∧ csvField "Anna" = "\"Anna\"" :=
  ⟨(exportCsv_spec (fun _ => "") []).2.2.2.1,
   (exportCsv_spec (fun _ => "") []).2.2.2.2.2 "Anna" (by decide)⟩

/-! ### Recent-submissions table (`latestSubmissions`) -/

/-- Embedding of the `latestSubmissions` memo: the filtered set sorted by
`created_at` descending (JavaScript `sort` is stable, modelled by the stable
`insertionSort`), truncated to the first 20 entries. -/
def latestSubmissions (filtered : List SubmissionRow) : List SubmissionRow :=
  (filtered.insertionSort (fun a b => b.created_at ≤ a.created_at)).take 20

/-- Claim C10: at most the 20 most recent filtered submissions are shown —
the result has length `min 20 |filtered|`, draws only from the filtered set,
is sorted by `created_at` descending, and dominates every filtered submission
it leaves out. -/
theorem latestSubmissions_spec (filtered : List SubmissionRow) :
    (latestSubmissions filtered).length = min 20 filtered.length ∧
    (∀ s ∈ latestSubmissions filtered, s ∈ filtered) ∧
    (latestSubmissions filtered).Pairwise (fun a b => b.created_at ≤ a.created_at) ∧
    (∀ s ∈ latestSubmissions filtered, ∀ u ∈ filtered,
      u ∉ latestSubmissions filtered → u.created_at ≤ s.created_at) := by
  haveI : IsTotal SubmissionRow (fun a b => b.created_at ≤ a.created_at) :=
    ⟨fun a b => by omega⟩
  haveI : IsTrans SubmissionRow (fun a b => b.created_at ≤ a.created_at) :=
    ⟨fun a b c hab hbc => by omega⟩
  have hperm := List.perm_insertionSort
    (fun a b : SubmissionRow => b.created_at ≤ a.created_at) filtered
  have hsorted := List.sorted_insertionSort
    (fun a b : SubmissionRow => b.created_at ≤ a.created_at) filtered
  refine ⟨?_, ?_, ?_, ?_⟩
  · rw [latestSubmissions, List.length_take, hperm.length_eq]
  · intro s hs
    exact hperm.mem_iff.mp ((List.take_sublist _ _).subset hs)
  · exact List.Pairwise.sublist (List.take_sublist _ _) hsorted
  · intro s hs u hu hnot
    set sorted := filtered.insertionSort (fun a b => b.created_at ≤ a.created_at) with hdef
    have husort : u ∈ sorted := hperm.mem_iff.mpr hu
    have hsplit : sorted = sorted.take 20 ++ sorted.drop 20 :=
      (List.take_append_drop 20 sorted).symm
    have hudrop : u ∈ sorted.drop 20 := by
      rcases List.mem_append.mp (hsplit ▸ husort) with h | h
      · exact absurd h hnot
      · exact h
    have hpw := List.pairwise_append.mp (hsplit ▸ hsorted)
    exact hpw.2.2 s hs u hudrop

/-- Fixture: twenty-one submissions with increasing timestamps, so that one of
them must be left off the 20-row recent table. -/
def manySubs : List SubmissionRow :=
  (List.range 21).map (fun i =>
    { id := toString i, test_version_id := "v", participant := "p", created_at := (i : Int) })

/-- Fixture: the oldest of `manySubs`, the one the 20-row table drops. -/
def oldestSub : SubmissionRow :=
  { id := "0", test_version_id := "v", participant := "p", created_at := 0 }

/-- Fixture: the newest of `manySubs`. -/
def newestSub : SubmissionRow :=
  { id := "20", test_version_id := "v", participant := "p", created_at := 20 }

/-- Witness for `latestSubmissions_spec`, discharging the maximality
hypotheses at a concrete 21-element filtered set. -/
theorem latestSubmissions_spec_witness : oldestSub.created_at ≤ newestSub.created_at :=
  (latestSubmissions_spec manySubs).2.2.2 newestSub (by decide) oldestSub (by decide) (by decide)

/-- Database state with every table empty, the base of the concrete fixtures. -/
def emptyDB : DB :=
  { tests := [], test_versions := [], questions := [], options := [],
    test_links := [], submissions := [], answers := [] }

/-! ### Latest-version resolution (share view and statistics view)

Both views run
`order('published_at', {ascending:false, nullsFirst:false}).order('version', {ascending:false}).limit(1).maybeSingle()`
over the test's versions: published_at descending with nulls last, then
version descending. -/

/-- Comparator of the version query: may row `(pa, va)` precede row `(pb, vb)`
under (published_at desc nulls last, version desc)? -/
def publishedBefore (pa : Option Int) (va : Int) (pb : Option Int) (vb : Int) : Bool :=
  match pa, pb with
  | some x, some y => if x = y then decide (vb ≤ va) else decide (y < x)
  | some _, none => true
  | none, some _ => false
  | none, none => decide (vb ≤ va)

/-- Row-level comparator of the version query. -/
def versionBefore (a b : VersionRow) : Bool :=
  publishedBefore a.published_at a.version b.published_at b.version

/-- Embedding of the latest-version lookup shared by `TestStatsPage` and
`TestLinkPage`: order the test's versions and take the first row. -/
def latestVersion (db : DB) (testId : String) : Option VersionRow :=
  ((db.test_versions.filter (fun tv => tv.test_id == testId)).insertionSort
    (fun a b => versionBefore a b = true)).head?

theorem publishedBefore_total (pa pb : Option Int) (va vb : Int) :
    publishedBefore pa va pb vb = true ∨ publishedBefore pb vb pa va = true := by
  rcases pa with _ | x <;> rcases pb with _ | y
  · simp only [publishedBefore, decide_eq_true_eq]
    omega
  · right
    rfl
  · left
    rfl
  · simp only [publishedBefore]
    split_ifs <;> simp only [decide_eq_true_eq] <;> omega

theorem publishedBefore_trans {pa pb pc : Option Int} {va vb vc : Int}
    (h1 : publishedBefore pa va pb vb = true) (h2 : publishedBefore pb vb pc vc = true) :
    publishedBefore pa va pc vc = true := by
  rcases pa with _ | x <;> rcases pb with _ | y <;> rcases pc with _ | z <;>
    simp only [publishedBefore] at h1 h2 ⊢
  · simp only [decide_eq_true_eq] at *
    omega
  · exact Bool.noConfusion h2
  · exact Bool.noConfusion h1
  · exact Bool.noConfusion h1
  · exact Bool.noConfusion h2
  · split_ifs at h1 h2 ⊢ <;> simp only [decide_eq_true_eq] at * <;> omega

theorem publishedBefore_le {pw q : Int} {va vb : Int}
    (h : publishedBefore (some pw) va (some q) vb = true) : q ≤ pw := by
  by_cases hc : pw = q
  · omega
  · simp only [publishedBefore, if_neg hc, decide_eq_true_eq] at h
    omega

/-- Claim C3: whenever a test has at least one published version, the resolved
latest version is a published one (a draft never wins, whatever its version
number), and its publication timestamp dominates every published version of the
test. -/
theorem latestVersion_spec (db : DB) (t : String) (v : VersionRow) (p : Int)
    (hv : v ∈ db.test_versions) (ht : v.test_id = t) (hp : v.published_at = some p) :
    ∃ w, latestVersion db t = some w ∧ w ∈ db.test_versions ∧ w.test_id = t ∧
      ∃ pw, w.published_at = some pw ∧
        ∀ u ∈ db.test_versions, u.test_id = t →
          ∀ q, u.published_at = some q → q ≤ pw := by
  classical
  haveI hTot : IsTotal VersionRow (fun a b => versionBefore a b = true) :=
    ⟨fun a b => publishedBefore_total a.published_at b.published_at a.version b.version⟩
  haveI hTrans : IsTrans VersionRow (fun a b => versionBefore a b = true) :=
    ⟨fun _ _ _ hab hbc => publishedBefore_trans hab hbc⟩
  have hvl : v ∈ db.test_versions.filter (fun tv => tv.test_id == t) :=
    List.mem_filter.mpr ⟨hv, by simp [ht]⟩
  have hperm := List.perm_insertionSort (fun a b : VersionRow => versionBefore a b = true)
    (db.test_versions.filter (fun tv => tv.test_id == t))
  have hsorted := List.sorted_insertionSort (fun a b : VersionRow => versionBefore a b = true)
    (db.test_versions.filter (fun tv => tv.test_id == t))
  have hmemS : v ∈ (db.test_versions.filter (fun tv => tv.test_id == t)).insertionSort
      (fun a b => versionBefore a b = true) := hperm.mem_iff.mpr hvl
  obtain ⟨w, ws, hcons⟩ : ∃ w ws,
      (db.test_versions.filter (fun tv => tv.test_id == t)).insertionSort
        (fun a b => versionBefore a b = true) = w :: ws := by
    cases hs : (db.test_versions.filter (fun tv => tv.test_id == t)).insertionSort
        (fun a b => versionBefore a b = true) with
    | nil => rw [hs] at hmemS; cases hmemS
    | cons w ws => exact ⟨w, ws, rfl⟩
  have hhead : latestVersion db t = some w := by
    rw [latestVersion, hcons]
    rfl
  have hwl : w ∈ db.test_versions.filter (fun tv => tv.test_id == t) :=
    hperm.mem_iff.mp (hcons ▸ List.mem_cons_self w ws)
  have hwdb := List.mem_filter.mp hwl
  have hwt : w.test_id = t := by simpa using hwdb.2
  have hrel : ∀ u ∈ ws, versionBefore w u = true := by
    have hpws := hcons ▸ hsorted
    exact fun u hu => List.rel_of_pairwise_cons hpws hu
  have hafter : ∀ u ∈ db.test_versions, u.test_id = t → u = w ∨ u ∈ ws := by
    intro u hu hut
    have : u ∈ w :: ws := hcons ▸ hperm.mem_iff.mpr (List.mem_filter.mpr ⟨hu, by simp [hut]⟩)
    simpa using this
  obtain ⟨pw, hpw⟩ : ∃ pw, w.published_at = some pw := by
    rcases hwp : w.published_at with _ | pw
    · rcases hafter v hv ht with hvw | hvws
      · rw [hvw] at hp
        rw [hp] at hwp
        cases hwp
      · have := hrel v hvws
        rw [versionBefore, hwp, hp, publishedBefore] at this
        cases this
    · exact ⟨pw, rfl⟩
  refine ⟨w, hhead, hwdb.1, hwt, pw, hpw, ?_⟩
  intro u hu hut q hq
  rcases hafter u hu hut with huw | huws
  · rw [huw] at hq
    rw [hq] at hpw
    cases hpw
    omega
  · have := hrel u huws
    rw [versionBefore, hpw, hq] at this
    exact publishedBefore_le this

/-- Fixture: a published version of test `t1`. -/
def pubVersion : VersionRow :=
  { id := "v1", test_id := "t1", version := 1, published_at := some 50 }

/-- Fixture: an unpublished draft of test `t1` with a higher version number. -/
def draftVersion : VersionRow :=
  { id := "v2", test_id := "t1", version := 2, published_at := none }

/-- Fixture: store holding the published version and the newer draft. -/
def dbVersions : DB :=
  { emptyDB with test_versions := [draftVersion, pubVersion] }

/-- Witness for `latestVersion_spec`: the resolver never returns the
unpublished draft when a published version exists. -/
theorem latestVersion_spec_witness : latestVersion dbVersions "t1" ≠ some draftVersion := by
  intro hcontra
  obtain ⟨w, hw, -, -, pw, hpw, -⟩ :=
    latestVersion_spec dbVersions "t1" pubVersion 50 (by decide) rfl rfl
  rw [hw] at hcontra
  injection hcontra with hwd
  rw [hwd] at hpw
  cases hpw

/-! ### Public link issuance (`TestLinkPage` load)

The share view looks up the version's `test_links` row with `maybeSingle()`
(0 rows yield null; several rows yield the PGRST116 error, which the code
deliberately treats as null) and inserts a fresh active link only when the
lookup yielded none. -/

/-- Embedding of the `maybeSingle()` link lookup, including the tolerated
PGRST116 case. -/
def maybeSingleLinkFor (links : List TestLinkRow) (versionId : String) : Option TestLinkRow :=
  match links.filter (fun l => l.test_version_id == versionId) with
  | [l] => some l
  | _ => none

/-- Embedding of the load-time link issuance: return the existing link, or
insert `{test_version_id, is_active:true}` with the store-generated `freshId`
and `freshPublicId` and return the new row. -/
def ensureLink (db : DB) (versionId : String) (freshId freshPublicId : String) :
    DB × TestLinkRow :=
  match maybeSingleLinkFor db.test_links versionId with
  | some l => (db, l)
  | none =>
    let newLink : TestLinkRow :=
      { id := freshId, test_version_id := versionId, public_id := freshPublicId,
        is_active := true }
    ({ db with test_links := db.test_links ++ [newLink] }, newLink)

/-- Claim C2: under the data-model invariant of at most one link per version,
re-entering the share view is idempotent — an existing link is returned
unchanged with no insert, a link (active) is created only when none exists,
and two successive issuances return the same `public_id` and leave the second
state equal to the first. -/
theorem ensureLink_idempotent (db : DB) (v : String) (i1 p1 i2 p2 : String)
    (hinv : (db.test_links.filter (fun l => l.test_version_id == v)).length ≤ 1) :
    (∀ l0, db.test_links.filter (fun l => l.test_version_id == v) = [l0] →
      ensureLink db v i1 p1 = (db, l0)) ∧
    (db.test_links.filter (fun l => l.test_version_id == v) = [] →
      (ensureLink db v i1 p1).1.test_links = db.test_links ++ [(ensureLink db v i1 p1).2] ∧
      (ensureLink db v i1 p1).2.is_active = true ∧
      (ensureLink db v i1 p1).2.public_id = p1) ∧
    (ensureLink (ensureLink db v i1 p1).1 v i2 p2).2.public_id =
      (ensureLink db v i1 p1).2.public_id ∧
    (ensureLink (ensureLink db v i1 p1).1 v i2 p2).1 = (ensureLink db v i1 p1).1 := by
  cases h : db.test_links.filter (fun l => l.test_version_id == v) with
  | nil =>
    have hfirst : ensureLink db v i1 p1 =
        ({ db with test_links := db.test_links ++
            [{ id := i1, test_version_id := v, public_id := p1, is_active := true }] },
          { id := i1, test_version_id := v, public_id := p1, is_active := true }) := by
      rw [ensureLink, maybeSingleLinkFor, h]
    have hsecond : (ensureLink db v i1 p1).1.test_links.filter
        (fun l => l.test_version_id == v) =
        [{ id := i1, test_version_id := v, public_id := p1, is_active := true }] := by
      rw [hfirst]
      simp only [List.filter_append, h]
      simp
    refine ⟨?_, ?_, ?_, ?_⟩
    · intro l0 h0
      exact List.noConfusion h0
    · intro _
      rw [hfirst]
      exact ⟨rfl, rfl, rfl⟩
    · rw [ensureLink, maybeSingleLinkFor, hsecond]
      rw [hfirst]
    · rw [ensureLink, maybeSingleLinkFor, hsecond]
  | cons l0 rest =>
    cases rest with
    | nil =>
      have hfirst : ensureLink db v i1 p1 = (db, l0) := by
        rw [ensureLink, maybeSingleLinkFor, h]
      refine ⟨?_, ?_, ?_, ?_⟩
      · intro l0' h0'
        injection h0' with h1 _
        rw [← h1]
        exact hfirst
      · intro h0
        exact List.noConfusion h0
      · rw [hfirst, ensureLink, maybeSingleLinkFor, h]
      · rw [hfirst, ensureLink, maybeSingleLinkFor, h]
    | cons l1 rest2 =>
      rw [h] at hinv
      simp only [List.length_cons] at hinv
      omega

/-- Fixture: an active link already issued for version `v1`. -/
def activeLink : TestLinkRow :=
  { id := "l1", test_version_id := "v1", public_id := "pub1", is_active := true }

/-- Fixture: store that already holds `activeLink`. -/
def dbOneLink : DB :=
  { emptyDB with test_links := [activeLink] }

/-- Witness for `ensureLink_idempotent`: re-issuing against a store that has a
link returns that link and changes nothing. -/
theorem ensureLink_idempotent_witness :
    ensureLink dbOneLink "v1" "l2" "pub2" = (dbOneLink, activeLink) :=
  (ensureLink_idempotent dbOneLink "v1" "l2" "pub2" "l3" "pub3" (by decide)).1
    activeLink (by decide)

/-! ### Anonymous public page (`PublicTestPage` loadData)

The page resolves the link by `public_id` and `is_active = true` with
`single()`; every failure along the way surfaces the one constant
`ERROR_MESSAGE`. -/

/-- The single generic failure message of the public page. -/
def ERROR_MESSAGE : String := "Ссылка недействительна или тест отключён."

/-- Data assembled by a successful public-page load. -/
structure PublicTestView where
  title : String
  description : Option String
  testVersionId : String
  questions : List (QuestionRow × List OptionRow)
deriving DecidableEq, Repr

/-- Comparator of `order('ord', {ascending:true})`: ascending with nulls last
(the PostgREST default for ascending order). -/
def ordBefore (a b : Option Int) : Bool :=
  match a, b with
  | some x, some y => decide (x ≤ y)
  | some _, none => true
  | none, some _ => false
  | none, none => true

/-- Questions of a version in `ord` order. -/
def sortQuestionsByOrd (qs : List QuestionRow) : List QuestionRow :=
  qs.insertionSort (fun a b => ordBefore a.ord b.ord = true)

/-- Options in `ord` order. -/
def sortOptionsByOrd (os : List OptionRow) : List OptionRow :=
  os.insertionSort (fun a b => ordBefore a.ord b.ord = true)

/-- Embedding of the public page's `loadData`: resolve the active link by
`public_id` (exactly one row, as `single()` demands), the linked version
(inner join), the test, the ordered questions, and — for SINGLE questions —
their ordered options; every failure yields the same `ERROR_MESSAGE`. -/
def loadPublicTest (db : DB) (publicId : String) : Except String PublicTestView :=
  match db.test_links.filter (fun l => l.public_id == publicId && l.is_active) with
  | [link] =>
    if !link.is_active then Except.error ERROR_MESSAGE
    else
      match db.test_versions.filter (fun tv => tv.id == link.test_version_id) with
      | [ver] =>
        match db.tests.filter (fun tr => tr.id == ver.test_id) with
        | [tr] =>
          let qs := sortQuestionsByOrd (db.questions.filter (fun q => q.test_version_id == ver.id))
          let singleIds := (qs.filter (fun q => q.kind == QuestionKind.SINGLE)).map (fun q => q.id)
          let opts := sortOptionsByOrd (db.options.filter (fun o => singleIds.contains o.question_id))
          Except.ok
            { title := tr.title, description := tr.description, testVersionId := ver.id,
              questions := qs.map (fun q =>
                (q, if q.kind == QuestionKind.SINGLE
                    then opts.filter (fun o => o.question_id == q.id) else [])) }
        | _ => Except.error ERROR_MESSAGE
      | _ => Except.error ERROR_MESSAGE
  | _ => Except.error ERROR_MESSAGE

/-- Claim C4: when no `test_links` row carries the requested `public_id` with
`is_active = true` — the link is absent or disabled — the public page answers
with the one generic `ERROR_MESSAGE`, never distinguishing the two cases. -/
theorem publicPage_generic_failure (db : DB) (pid : String)
    (h : ∀ l ∈ db.test_links, ¬(l.public_id = pid ∧ l.is_active = true)) :
    loadPublicTest db pid = Except.error ERROR_MESSAGE := by
  have hfil : db.test_links.filter (fun l => l.public_id == pid && l.is_active) = [] := by
    rw [List.filter_eq_nil_iff]
    intro l hl
    simp only [Bool.and_eq_true, beq_iff_eq, not_and]
    intro hpid hact
    exact h l hl ⟨hpid, hact⟩
  rw [loadPublicTest, hfil]

/-- Fixture: a disabled link for `pub1`. -/
def inactiveLink : TestLinkRow :=
  { id := "l9", test_version_id := "v1", public_id := "pub1", is_active := false }

/-- Fixture: store holding only the disabled `pub1` link. -/
def dbInactiveLink : DB :=
  { emptyDB with test_links := [inactiveLink] }

/-- Witness for `publicPage_generic_failure`: a missing link and a disabled
link produce the identical generic message. -/
theorem publicPage_generic_failure_witness :
    loadPublicTest emptyDB "pub1" = Except.error ERROR_MESSAGE ∧
    loadPublicTest dbInactiveLink "pub1" = Except.error ERROR_MESSAGE :=
  ⟨publicPage_generic_failure emptyDB "pub1" (by decide),
   publicPage_generic_failure dbInactiveLink "pub1" (by decide)⟩

/-! ### Anonymous submission (`PublicTestPage` handleSubmit)

`answersState` is a JavaScript object mapping question ids to the selected
option id (SINGLE) or the typed text (TEXT); it is modelled as an association
list with unique keys.  A key is "answered" when its value is truthy, i.e.
present and not the empty string. -/

/-- JavaScript object-property assignment on the answers map. -/
def setKey : List (String × String) → String → String → List (String × String)
  | [], k, v => [(k, v)]
  | (k', v') :: rest, k, v =>
    if k' = k then (k, v) :: rest else (k', v') :: setKey rest k v

/-- JavaScript object-property access `m[k]` on the answers map. -/
def getKey : List (String × String) → String → Option String
  | [], _ => none
  | (k', v) :: rest, k => if k' = k then some v else getKey rest k

/-- Truthiness of `answersState[key]`: a present, non-empty value. -/
def answeredKey (m : List (String × String)) (k : String) : Bool :=
  match getKey m k with
  | some s => !(s == "")
  | none => false

/-- The `handleSubmit` option sort `(a.ord ?? 0) - (b.ord ?? 0)` (stable,
missing `ord` read as 0). -/
def sortOptionsByNumOrd (os : List OptionRow) : List OptionRow :=
  os.insertionSort (fun a b => a.ord.getD 0 ≤ b.ord.getD 0)

/-- One step of the pre-submit normalization loop: a SINGLE question without a
truthy answer gets the id of its first option by `ord` (when it has one). -/
def stepEnsure (acc : List (String × String)) (p : QuestionRow × List OptionRow) :
    List (String × String) :=
  if p.1.kind == QuestionKind.SINGLE && !(answeredKey acc p.1.id) then
    match (sortOptionsByNumOrd p.2).head? with
    | some o => setKey acc p.1.id o.id
    | none => acc
  else acc

/-- Pre-submit normalization over all rendered questions. -/
def ensureAnswers (qs : List (QuestionRow × List OptionRow))
    (m : List (String × String)) : List (String × String) :=
  qs.foldl stepEnsure m

/-- Validation: some SINGLE question still lacks a truthy selection. -/
def missingSingleChoice (qs : List (QuestionRow × List OptionRow))
    (m : List (String × String)) : Bool :=
  qs.any (fun p => p.1.kind == QuestionKind.SINGLE && !(answeredKey m p.1.id))

/-- Validation: some TEXT question has an empty trimmed response. -/
def missingTextAnswer (qs : List (QuestionRow × List OptionRow))
    (m : List (String × String)) : Bool :=
  qs.any (fun p => p.1.kind == QuestionKind.TEXT &&
    (trimString ((getKey m p.1.id).getD "") == ""))

/-- Answer rows inserted for one submission: SINGLE questions record the
selected option id, TEXT questions the trimmed free text. -/
def answersPayload (subId : String) (qs : List (QuestionRow × List OptionRow))
    (m : List (String × String)) : List AnswerRow :=
  qs.map (fun p =>
    if p.1.kind == QuestionKind.SINGLE then
      { submission_id := subId, question_id := p.1.id, option_id := getKey m p.1.id,
        free_text := none }
    else
      { submission_id := subId, question_id := p.1.id, option_id := none,
        free_text := some (trimString ((getKey m p.1.id).getD "")) })

/-- Embedding of `handleSubmit`: trim the participant, normalize the answers,
validate, then insert the Submission and its Answer rows. -/
def submitAnswers (db : DB) (versionId : String) (partic : String)
    (qs : List (QuestionRow × List OptionRow)) (m : List (String × String))
    (freshSubmissionId : String) (now : Int) : Except String DB :=
  if trimString partic = "" then
    Except.error "Введите ФИО или код участника."
  else if missingSingleChoice qs (ensureAnswers qs m) then
    Except.error "Пожалуйста, ответьте на все вопросы с вариантами."
  else if missingTextAnswer qs (ensureAnswers qs m) then
    Except.error "Пожалуйста, заполните все текстовые ответы."
  else
    Except.ok
      { db with
        submissions := db.submissions ++
          [{ id := freshSubmissionId, test_version_id := versionId,
             participant := trimString partic, created_at := now }],
        answers := db.answers ++ answersPayload freshSubmissionId qs (ensureAnswers qs m) }

theorem getKey_setKey (m : List (String × String)) (k v k' : String) :
    getKey (setKey m k v) k' = if k = k' then some v else getKey m k' := by
  induction m with
  | nil =>
    by_cases h : k = k' <;> simp [setKey, getKey, h]
  | cons p rest ih =>
    obtain ⟨a, b⟩ := p
    by_cases ha : a = k
    · subst ha
      by_cases h : a = k' <;> simp [setKey, getKey, h]
    · rw [setKey, if_neg ha, getKey]
      by_cases h : a = k'
      · subst h
        rw [if_pos rfl, if_neg (fun he => ha he.symm), getKey, if_pos rfl]
      · rw [if_neg h, ih, getKey, if_neg h]

theorem ensureAnswers_lookup_untouched (qs : List (QuestionRow × List OptionRow))
    (acc : List (String × String)) (k : String) (hk : ∀ p ∈ qs, p.1.id ≠ k) :
    getKey (ensureAnswers qs acc) k = getKey acc k := by
  induction qs generalizing acc with
  | nil => rfl
  | cons p rest ih =>
    have hcons : ensureAnswers (p :: rest) acc = ensureAnswers rest (stepEnsure acc p) := rfl
    rw [hcons, ih (stepEnsure acc p) (fun p' hp' => hk p' (List.mem_cons_of_mem p hp'))]
    rw [stepEnsure]
    split
    · cases (sortOptionsByNumOrd p.2).head? with
      | none => rfl
      | some o =>
        simp only
        rw [getKey_setKey, if_neg (hk p (List.mem_cons_self p rest))]
    · rfl

theorem answeredKey_setKey_ne (m : List (String × String)) (k v k' : String) (h : k ≠ k') :
    answeredKey (setKey m k v) k' = answeredKey m k' := by
  rw [answeredKey, answeredKey, getKey_setKey, if_neg h]

theorem ensureAnswers_assigns (qs : List (QuestionRow × List OptionRow))
    (m : List (String × String)) (q : QuestionRow) (os : List OptionRow) (o : OptionRow)
    (hq : (q, os) ∈ qs) (hkind : q.kind = QuestionKind.SINGLE)
    (hnodup : (qs.map (fun p => p.1.id)).Nodup)
    (hun : answeredKey m q.id = false)
    (ho : (sortOptionsByNumOrd os).head? = some o) :
    getKey (ensureAnswers qs m) q.id = some o.id := by
  induction qs generalizing m with
  | nil => cases hq
  | cons p rest ih =>
    rw [List.map_cons, List.nodup_cons] at hnodup
    rw [List.mem_cons] at hq
    have hcons : ensureAnswers (p :: rest) m = ensureAnswers rest (stepEnsure m p) := rfl
    rcases hq with hq | hq
    · have hpq : p = (q, os) := hq.symm
      subst hpq
      have hstep : stepEnsure m (q, os) = setKey m q.id o.id := by
        rw [stepEnsure]
        simp only [hkind, beq_self_eq_true, hun, Bool.not_false, Bool.and_self, if_pos]
        rw [ho]
      have hrest : ∀ p' ∈ rest, p'.1.id ≠ q.id := by
        intro p' hp' he
        exact hnodup.1 (he ▸ List.mem_map.mpr ⟨p', hp', rfl⟩)
      rw [hcons, hstep, ensureAnswers_lookup_untouched rest _ q.id hrest,
        getKey_setKey, if_pos rfl]
    · have hqid : q.id ∈ rest.map (fun p => p.1.id) :=
        List.mem_map.mpr ⟨(q, os), hq, rfl⟩
      have hne : p.1.id ≠ q.id := fun he => hnodup.1 (he ▸ hqid)
      have hstep : answeredKey (stepEnsure m p) q.id = false := by
        rw [stepEnsure]
        split
        · cases (sortOptionsByNumOrd p.2).head? with
          | none => exact hun
          | some o' =>
            simp only
            rw [answeredKey_setKey_ne _ _ _ _ hne]
            exact hun
        · exact hun
      rw [hcons]
      exact ih (stepEnsure m p) hq hnodup.2 hstep

theorem answersPayload_single_mem (sid : String) (qs : List (QuestionRow × List OptionRow))
    (m : List (String × String)) (q : QuestionRow) (os : List OptionRow)
    (hq : (q, os) ∈ qs) (hkind : q.kind = QuestionKind.SINGLE) :
    ({ submission_id := sid, question_id := q.id, option_id := getKey m q.id,
       free_text := none } : AnswerRow) ∈ answersPayload sid qs m := by
  rw [answersPayload]
  refine List.mem_map.mpr ⟨(q, os), hq, ?_⟩
  simp [hkind]

/-- Claim C5: before validation and before any write, every SINGLE question
without an explicit (truthy) selection is assigned the id of its first option
by `ord` whenever it has at least one option, and that option id is the
question's Answer row — both in the prepared payload and, when the submit
succeeds, in the stored answers. -/
theorem singleDefault_spec (qs : List (QuestionRow × List OptionRow))
    (m : List (String × String)) (sid : String) (q : QuestionRow) (os : List OptionRow)
    (o : OptionRow)
    (hq : (q, os) ∈ qs) (hkind : q.kind = QuestionKind.SINGLE)
    (hnodup : (qs.map (fun p => p.1.id)).Nodup)
    (hun : answeredKey m q.id = false)
    (ho : (sortOptionsByNumOrd os).head? = some o) :
    getKey (ensureAnswers qs m) q.id = some o.id ∧
    (∃ a ∈ answersPayload sid qs (ensureAnswers qs m),
      a.question_id = q.id ∧ a.option_id = some o.id ∧ a.submission_id = sid) ∧
    (∀ db versionId partic fid now db',
      submitAnswers db versionId partic qs m fid now = Except.ok db' →
      ∃ a ∈ db'.answers, a.question_id = q.id ∧ a.option_id = some o.id ∧
        a.submission_id = fid) := by
  have hlook := ensureAnswers_assigns qs m q os o hq hkind hnodup hun ho
  have hpay : ∀ s : String,
      ({ submission_id := s, question_id := q.id, option_id := some o.id,
         free_text := none } : AnswerRow) ∈ answersPayload s qs (ensureAnswers qs m) := by
    intro s
    have hmem := answersPayload_single_mem s qs (ensureAnswers qs m) q os hq hkind
    rw [hlook] at hmem
    exact hmem
  refine ⟨hlook,
    ⟨{ submission_id := sid, question_id := q.id, option_id := some o.id, free_text := none },
      hpay sid, rfl, rfl, rfl⟩, ?_⟩
  intro db versionId partic fid now db' hok
  rw [submitAnswers] at hok
  split_ifs at hok
  injection hok with hdb
  refine
    ⟨{ submission_id := fid, question_id := q.id, option_id := some o.id, free_text := none },
      ?_, rfl, rfl, rfl⟩
  rw [← hdb]
  exact List.mem_append_right _ (hpay fid)

/-- Fixture: first option (by ord) of the witness question. -/
def optA : OptionRow := { id := "oA", question_id := "q1", text := "A", ord := some 1 }

/-- Fixture: second option of the witness question. -/
def optB : OptionRow := { id := "oB", question_id := "q1", text := "B", ord := some 2 }

/-- Fixture: a SINGLE question. -/
def singleQ : QuestionRow :=
  { id := "q1", test_version_id := "v1", text := "Pick one", kind := QuestionKind.SINGLE,
    ord := some 1 }

/-- Witness for `singleDefault_spec`: with no selection made, the question is
defaulted to `optA`, its first option by ord (even though `optB` is listed
first). -/
theorem singleDefault_spec_witness :
    getKey (ensureAnswers [(singleQ, [optB, optA])] []) "q1" = some "oA" :=
  (singleDefault_spec [(singleQ, [optB, optA])] [] "s1" singleQ [optB, optA] optA
    (by decide) rfl (by decide) rfl (by decide)).1

/-! ### Per-question bar aggregation (`TestStatsPage` charts)

The source groups the answers of the filtered submissions by question id (a
`Map` built in encounter order, so the group of a question is exactly the
order-preserving filter of the answer list), sorts the question's options by
`(ord ?? 0)`, starts every option at count 0, and bumps the count at the
`findIndex` of each answer's `option_id`, skipping answers whose option is
unknown. -/

/-- Options of one question in the chart's category order. -/
def qOptsOf (options : List OptionRow) (q : QuestionRow) : List OptionRow :=
  sortOptionsByNumOrd (options.filter (fun o' => o'.question_id == q.id))

/-- Answers of the filtered submissions belonging to one question. -/
def filteredAnswersFor (answers : List AnswerRow) (subIds : List String)
    (qid : String) : List AnswerRow :=
  answers.filter (fun a => subIds.contains a.submission_id && a.question_id == qid)

/-- One step of the counting loop: bump the count at the `findIndex` of the
answer's option, when the option is one of the question's. -/
def stepCount (qOpts : List OptionRow) (counts : List Nat) (a : AnswerRow) : List Nat :=
  match a.option_id with
  | none => counts
  | some oid =>
    if qOpts.findIdx (fun o' => o'.id == oid) < qOpts.length then
      counts.set (qOpts.findIdx (fun o' => o'.id == oid))
        (counts.getD (qOpts.findIdx (fun o' => o'.id == oid)) 0 + 1)
    else counts

/-- Bar data of one SINGLE question: one count per option, starting at 0. -/
def chartCounts (qOpts : List OptionRow) (ans : List AnswerRow) : List Nat :=
  ans.foldl (stepCount qOpts) (qOpts.map (fun _ => 0))

/-- Embedding of the `charts` memo: one (question, labels, counts) triple per
SINGLE question; TEXT questions yield nothing. -/
def chartsFor (questions : List QuestionRow) (options : List OptionRow)
    (answers : List AnswerRow) (filtered : List SubmissionRow) :
    List (QuestionRow × List String × List Nat) :=
  (questions.filter (fun q => q.kind == QuestionKind.SINGLE)).map (fun q =>
    (q, (qOptsOf options q).map (fun o' => o'.text),
      chartCounts (qOptsOf options q)
        (filteredAnswersFor answers (filtered.map (fun s => s.id)) q.id)))

theorem length_stepCount (qOpts : List OptionRow) (counts : List Nat) (a : AnswerRow) :
    (stepCount qOpts counts a).length = counts.length := by
  rw [stepCount]
  cases a.option_id with
  | none => rfl
  | some oid =>
    simp only
    split
    · rw [List.length_set]
    · rfl

theorem length_foldl_stepCount (qOpts : List OptionRow) (ans : List AnswerRow)
    (counts : List Nat) :
    (ans.foldl (stepCount qOpts) counts).length = counts.length := by
  induction ans generalizing counts with
  | nil => rfl
  | cons a rest ih => rw [List.foldl_cons, ih, length_stepCount]

theorem stepCount_getD (qOpts : List OptionRow) (hnd : (qOpts.map (fun o' => o'.id)).Nodup)
    (counts : List Nat) (hlen : counts.length = qOpts.length) (a : AnswerRow)
    (i : Nat) (hi : i < qOpts.length) :
    (stepCount qOpts counts a).getD i 0 =
      counts.getD i 0 + (if a.option_id == some (qOpts.get ⟨i, hi⟩).id then 1 else 0) := by
  rw [stepCount]
  cases ha : a.option_id with
  | none => simp
  | some oid =>
    simp only [Option.some.injEq, beq_iff_eq]
    by_cases hoid : oid = (qOpts.get ⟨i, hi⟩).id
    · have hex : qOpts.findIdx (fun o' => o'.id == oid) < qOpts.length :=
        List.findIdx_lt_length_of_exists
          ⟨qOpts.get ⟨i, hi⟩, List.get_mem qOpts i hi, by simp [hoid]⟩
      have hatj : ((qOpts.get ⟨qOpts.findIdx (fun o' => o'.id == oid), hex⟩)).id = oid := by
        have hfi := @List.findIdx_getElem _ (fun o' => o'.id == oid) qOpts hex
        simpa using hfi
      have hji : qOpts.findIdx (fun o' => o'.id == oid) = i := by
        have hmapj : (qOpts.map (fun o' => o'.id)).get
            ⟨qOpts.findIdx (fun o' => o'.id == oid), by rw [List.length_map]; exact hex⟩ =
            (qOpts.map (fun o' => o'.id)).get ⟨i, by rw [List.length_map]; exact hi⟩ := by
          simp only [List.get_eq_getElem, List.getElem_map]
          simp only [List.get_eq_getElem] at hatj
          rw [hatj]
          exact hoid
        exact (List.Nodup.getElem_inj_iff hnd).mp hmapj
      rw [if_pos hex, hji, if_pos hoid]
      rw [List.getD_eq_getElem?_getD, List.getElem?_set, if_pos rfl, if_pos (hlen ▸ hi)]
      rw [List.getD_eq_getElem?_getD]
      rfl
    · rw [if_neg hoid]
      split
      · rename_i hex
        have hatj : ((qOpts.get ⟨qOpts.findIdx (fun o' => o'.id == oid), hex⟩)).id = oid := by
          have hfi := @List.findIdx_getElem _ (fun o' => o'.id == oid) qOpts hex
          simpa using hfi
        have hji : qOpts.findIdx (fun o' => o'.id == oid) ≠ i := by
          intro he
          subst he
          exact hoid hatj.symm
        rw [List.getD_eq_getElem?_getD, List.getElem?_set, if_neg hji,
          ← List.getD_eq_getElem?_getD]
        omega
      · omega

theorem chartCounts_foldl_getD (qOpts : List OptionRow)
    (hnd : (qOpts.map (fun o' => o'.id)).Nodup) (ans : List AnswerRow)
    (counts : List Nat) (hlen : counts.length = qOpts.length)
    (i : Nat) (hi : i < qOpts.length) :
    (ans.foldl (stepCount qOpts) counts).getD i 0 =
      counts.getD i 0 +
        ans.countP (fun a => a.option_id == some (qOpts.get ⟨i, hi⟩).id) := by
  induction ans generalizing counts with
  | nil => simp
  | cons a rest ih =>
    rw [List.foldl_cons, ih (stepCount qOpts counts a) (by rw [length_stepCount]; exact hlen),
      stepCount_getD qOpts hnd counts hlen a i hi, List.countP_cons]
    omega

theorem nodup_qOptsOf (options : List OptionRow) (q : QuestionRow)
    (hnd : (options.map (fun o' => o'.id)).Nodup) :
    ((qOptsOf options q).map (fun o' => o'.id)).Nodup := by
  have hfil : ((options.filter (fun o' => o'.question_id == q.id)).map
      (fun o' => o'.id)).Nodup :=
    List.Nodup.sublist (List.Sublist.map _ (List.filter_sublist options)) hnd
  have hperm := List.perm_insertionSort
    (fun a b : OptionRow => a.ord.getD 0 ≤ b.ord.getD 0)
    (options.filter (fun o' => o'.question_id == q.id))
  exact ((hperm.map (fun o' => o'.id)).nodup_iff).mpr hfil

/-- Claim C6: every chart belongs to a SINGLE question and every SINGLE
question gets one; the counts vector has one entry per option in ord order
(zero-answer options included at 0), and entry `i` counts exactly the answers
of filtered submissions for that question whose `option_id` is option `i` —
answers of submissions outside the filtered set are ignored. -/
theorem charts_spec (questions : List QuestionRow) (options : List OptionRow)
    (answers : List AnswerRow) (filtered : List SubmissionRow)
    (hnd : (options.map (fun o' => o'.id)).Nodup) :
    (∀ c ∈ chartsFor questions options answers filtered, c.1.kind = QuestionKind.SINGLE) ∧
    (∀ q ∈ questions, q.kind = QuestionKind.SINGLE →
      ∃ c ∈ chartsFor questions options answers filtered, c.1 = q) ∧
    (∀ q ∈ questions, q.kind = QuestionKind.SINGLE →
      (chartCounts (qOptsOf options q)
          (filteredAnswersFor answers (filtered.map (fun s => s.id)) q.id)).length =
        (qOptsOf options q).length ∧
      (qOptsOf options q).Pairwise (fun a b => a.ord.getD 0 ≤ b.ord.getD 0) ∧
      ∀ i, (hi : i < (qOptsOf options q).length) →
        (chartCounts (qOptsOf options q)
            (filteredAnswersFor answers (filtered.map (fun s => s.id)) q.id)).getD i 0 =
          (answers.filter (fun a =>
            (filtered.map (fun s => s.id)).contains a.submission_id &&
            a.question_id == q.id &&
            a.option_id == some ((qOptsOf options q).get ⟨i, hi⟩).id)).length) := by
  refine ⟨?_, ?_, ?_⟩
  · intro c hc
    obtain ⟨q, hq, hcq⟩ := List.mem_map.mp hc
    have := (List.mem_filter.mp hq).2
    rw [← hcq]
    simpa using this
  · intro q hq hkind
    refine ⟨_, List.mem_map.mpr ⟨q, List.mem_filter.mpr ⟨hq, by simp [hkind]⟩, rfl⟩, rfl⟩
  · intro q _ _
    haveI : IsTotal OptionRow (fun a b => a.ord.getD 0 ≤ b.ord.getD 0) :=
      ⟨fun a b => by omega⟩
    haveI : IsTrans OptionRow (fun a b => a.ord.getD 0 ≤ b.ord.getD 0) :=
      ⟨fun a b c hab hbc => by omega⟩
    refine ⟨?_, ?_, ?_⟩
    · rw [chartCounts, length_foldl_stepCount, List.length_map]
    · exact List.sorted_insertionSort _ _
    · intro i hi
      rw [chartCounts, chartCounts_foldl_getD (qOptsOf options q)
        (nodup_qOptsOf options q hnd) _ _ (by rw [List.length_map]) i hi]
      have hzero : ((qOptsOf options q).map (fun _ => (0 : Nat))).getD i 0 = 0 := by
        rw [List.getD_eq_getElem?_getD, List.getElem?_map]
        cases h : (qOptsOf options q)[i]? <;> rfl
      rw [hzero, Nat.zero_add, filteredAnswersFor, List.countP_filter,
        List.countP_eq_length_filter]
      refine congrArg List.length (List.filter_congr ?_)
      intro a _
      exact Bool.and_comm _ _

/-- Fixture: the chart question's three options. -/
def chartOpts : List OptionRow :=
  [{ id := "oX", question_id := "q1", text := "X", ord := some 1 },
   { id := "oY", question_id := "q1", text := "Y", ord := some 2 },
   { id := "oZ", question_id := "q1", text := "Z", ord := some 3 }]

/-- Fixture: answers of three filtered submissions — two pick X, one picks Y,
none picks Z. -/
def chartAnswers : List AnswerRow :=
  [{ submission_id := "s1", question_id := "q1", option_id := some "oX", free_text := none },
   { submission_id := "s2", question_id := "q1", option_id := some "oX", free_text := none },
   { submission_id := "s3", question_id := "q1", option_id := some "oY", free_text := none }]

/-- Fixture: the three filtered submissions of the chart example. -/
def chartSubs : List SubmissionRow :=
  [{ id := "s1", test_version_id := "v1", participant := "a", created_at := 1 },
   { id := "s2", test_version_id := "v1", participant := "b", created_at := 2 },
   { id := "s3", test_version_id := "v1", participant := "c", created_at := 3 }]

/-- Witness for `charts_spec`: counts are X ↦ 2, Y ↦ 1, Z ↦ 0 in the spec's
three-submission example. -/
theorem charts_spec_witness :
    (chartCounts (qOptsOf chartOpts singleQ)
        (filteredAnswersFor chartAnswers (chartSubs.map (fun s => s.id)) "q1")).getD 0 0 = 2 ∧
    (chartCounts (qOptsOf chartOpts singleQ)
        (filteredAnswersFor chartAnswers (chartSubs.map (fun s => s.id)) "q1")).getD 1 0 = 1 ∧
    (chartCounts (qOptsOf chartOpts singleQ)
        (filteredAnswersFor chartAnswers (chartSubs.map (fun s => s.id)) "q1")).getD 2 0 = 0 := by
  have h := ((charts_spec [singleQ] chartOpts chartAnswers chartSubs (by decide)).2.2
    singleQ (by decide) rfl).2.2
  exact ⟨(h 0 (by decide)).trans (by decide),
    (h 1 (by decide)).trans (by decide),
    (h 2 (by decide)).trans (by decide)⟩

/-! ### Cascade deletion (`handleDeleteTest`, dashboard)

The source deletes, in order: Answers of the versions' submissions, those
Submissions, Options of the versions' questions, those Questions, TestLinks,
TestVersions, and last the Test, guarding each fetched-id block with a
nonempty check. -/

/-- Tables touched by the cascade, in dependency order. -/
inductive TableName where
  | answersT
  | submissionsT
  | optionsT
  | questionsT
  | testLinksT
  | testVersionsT
  | testsT
deriving DecidableEq, Repr

/-- Position of a table in the dependency order. -/
def tableRank : TableName → Nat
  | TableName.answersT => 0
  | TableName.submissionsT => 1
  | TableName.optionsT => 2
  | TableName.questionsT => 3
  | TableName.testLinksT => 4
  | TableName.testVersionsT => 5
  | TableName.testsT => 6

/-- The `submissionIds.length > 0` block: delete the submissions' Answers,
then the Submissions; with no submission ids, both steps are skipped. -/
def cascadeStageSubs (db : DB) (sids : List String) :
    DB × List (TableName × List String) :=
  if sids.isEmpty then (db, [])
  else
    ({ db with
        answers := db.answers.filter (fun a => !(sids.contains a.submission_id)),
        submissions := db.submissions.filter (fun s => !(sids.contains s.id)) },
      [(TableName.answersT, sids), (TableName.submissionsT, sids)])

/-- The `questionIds.length > 0` block: delete the questions' Options, then
the Questions; with no question ids, both steps are skipped. -/
def cascadeStageQuestions (db : DB) (qids : List String) :
    DB × List (TableName × List String) :=
  if qids.isEmpty then (db, [])
  else
    ({ db with
        options := db.options.filter (fun o' => !(qids.contains o'.question_id)),
        questions := db.questions.filter (fun q => !(qids.contains q.id)) },
      [(TableName.optionsT, qids), (TableName.questionsT, qids)])

/-- The `versionIds.length > 0` block: the submission stage, the question
stage, then the TestLinks and TestVersions deletes (always run here). -/
def cascadeVersionsBranch (db : DB) (vids : List String) :
    DB × List (TableName × List String) :=
  let sids := (db.submissions.filter (fun s => vids.contains s.test_version_id)).map
    (fun s => s.id)
  let st2 := cascadeStageSubs db sids
  let qids := (st2.1.questions.filter (fun q => vids.contains q.test_version_id)).map
    (fun q => q.id)
  let st3 := cascadeStageQuestions st2.1 qids
  ({ st3.1 with
      test_links := st3.1.test_links.filter (fun l => !(vids.contains l.test_version_id)),
      test_versions := st3.1.test_versions.filter (fun v => !(vids.contains v.id)) },
    st2.2 ++ st3.2 ++
      [(TableName.testLinksT, vids), (TableName.testVersionsT, vids)])

/-- Version ids fetched for the test. -/
def versionIdsOf (db : DB) (testId : String) : List String :=
  (db.test_versions.filter (fun v => v.test_id == testId)).map (fun v => v.id)

/-- State and trace after the version-guarded block. -/
def cascadeMid (db : DB) (testId : String) : DB × List (TableName × List String) :=
  if (versionIdsOf db testId).isEmpty then (db, [])
  else cascadeVersionsBranch db (versionIdsOf db testId)

/-- Embedding of `handleDeleteTest`'s delete sequence (the success path):
resulting store and the ordered trace of executed delete steps, each carrying
the id set of its `in`/`eq` predicate. -/
def cascadeDelete (db : DB) (testId : String) : DB × List (TableName × List String) :=
  ({ (cascadeMid db testId).1 with
      tests := (cascadeMid db testId).1.tests.filter (fun tr => !(tr.id == testId)) },
    (cascadeMid db testId).2 ++ [(TableName.testsT, [testId])])

theorem stageSubs_tests (db : DB) (sids : List String) :
    (cascadeStageSubs db sids).1.tests = db.tests := by
  rw [cascadeStageSubs]
  split <;> rfl

theorem stageSubs_test_versions (db : DB) (sids : List String) :
    (cascadeStageSubs db sids).1.test_versions = db.test_versions := by
  rw [cascadeStageSubs]
  split <;> rfl

theorem stageSubs_questions (db : DB) (sids : List String) :
    (cascadeStageSubs db sids).1.questions = db.questions := by
  rw [cascadeStageSubs]
  split <;> rfl

theorem stageSubs_options (db : DB) (sids : List String) :
    (cascadeStageSubs db sids).1.options = db.options := by
  rw [cascadeStageSubs]
  split <;> rfl

theorem stageSubs_test_links (db : DB) (sids : List String) :
    (cascadeStageSubs db sids).1.test_links = db.test_links := by
  rw [cascadeStageSubs]
  split <;> rfl

theorem stageSubs_submissions (db : DB) (sids : List String) :
    (cascadeStageSubs db sids).1.submissions =
      if sids.isEmpty then db.submissions
      else db.submissions.filter (fun s => !(sids.contains s.id)) := by
  rw [cascadeStageSubs]
  split <;> simp [*]

theorem stageSubs_answers (db : DB) (sids : List String) :
    (cascadeStageSubs db sids).1.answers =
      if sids.isEmpty then db.answers
      else db.answers.filter (fun a => !(sids.contains a.submission_id)) := by
  rw [cascadeStageSubs]
  split <;> simp [*]

theorem stageSubs_trace (db : DB) (sids : List String) :
    (cascadeStageSubs db sids).2 =
      if sids.isEmpty then []
      else [(TableName.answersT, sids), (TableName.submissionsT, sids)] := by
  rw [cascadeStageSubs]
  split <;> simp [*]

theorem stageQuestions_tests (db : DB) (qids : List String) :
    (cascadeStageQuestions db qids).1.tests = db.tests := by
  rw [cascadeStageQuestions]
  split <;> rfl

theorem stageQuestions_test_versions (db : DB) (qids : List String) :
    (cascadeStageQuestions db qids).1.test_versions = db.test_versions := by
  rw [cascadeStageQuestions]
  split <;> rfl

theorem stageQuestions_test_links (db : DB) (qids : List String) :
    (cascadeStageQuestions db qids).1.test_links = db.test_links := by
  rw [cascadeStageQuestions]
  split <;> rfl

theorem stageQuestions_submissions (db : DB) (qids : List String) :
    (cascadeStageQuestions db qids).1.submissions = db.submissions := by
  rw [cascadeStageQuestions]
  split <;> rfl

theorem stageQuestions_answers (db : DB) (qids : List String) :
    (cascadeStageQuestions db qids).1.answers = db.answers := by
  rw [cascadeStageQuestions]
  split <;> rfl

theorem stageQuestions_questions (db : DB) (qids : List String) :
    (cascadeStageQuestions db qids).1.questions =
      if qids.isEmpty then db.questions
      else db.questions.filter (fun q => !(qids.contains q.id)) := by
  rw [cascadeStageQuestions]
  split <;> simp [*]

theorem stageQuestions_options (db : DB) (qids : List String) :
    (cascadeStageQuestions db qids).1.options =
      if qids.isEmpty then db.options
      else db.options.filter (fun o' => !(qids.contains o'.question_id)) := by
  rw [cascadeStageQuestions]
  split <;> simp [*]

theorem stageQuestions_trace (db : DB) (qids : List String) :
    (cascadeStageQuestions db qids).2 =
      if qids.isEmpty then []
      else [(TableName.optionsT, qids), (TableName.questionsT, qids)] := by
  rw [cascadeStageQuestions]
  split <;> simp [*]

/-- Question ids the branch fetches (the earlier deletes leave `questions`
untouched). -/
def questionIdsOf (db : DB) (vids : List String) : List String :=
  (db.questions.filter (fun q => vids.contains q.test_version_id)).map (fun q => q.id)

/-- Submission ids the branch fetches. -/
def submissionIdsOf (db : DB) (vids : List String) : List String :=
  (db.submissions.filter (fun s => vids.contains s.test_version_id)).map (fun s => s.id)

theorem branch_tests (db : DB) (vids : List String) :
    (cascadeVersionsBranch db vids).1.tests = db.tests := by
  rw [cascadeVersionsBranch]
  simp only [stageQuestions_tests, stageSubs_tests]

theorem branch_test_versions (db : DB) (vids : List String) :
    (cascadeVersionsBranch db vids).1.test_versions =
      db.test_versions.filter (fun v => !(vids.contains v.id)) := by
  rw [cascadeVersionsBranch]
  simp only [stageQuestions_test_versions, stageSubs_test_versions]

theorem branch_test_links (db : DB) (vids : List String) :
    (cascadeVersionsBranch db vids).1.test_links =
      db.test_links.filter (fun l => !(vids.contains l.test_version_id)) := by
  rw [cascadeVersionsBranch]
  simp only [stageQuestions_test_links, stageSubs_test_links]

theorem branch_questions (db : DB) (vids : List String) :
    (cascadeVersionsBranch db vids).1.questions =
      if (questionIdsOf db vids).isEmpty then db.questions
      else db.questions.filter (fun q => !((questionIdsOf db vids).contains q.id)) := by
  rw [cascadeVersionsBranch]
  simp only [stageQuestions_questions, stageSubs_questions, questionIdsOf]

theorem branch_options (db : DB) (vids : List String) :
    (cascadeVersionsBranch db vids).1.options =
      if (questionIdsOf db vids).isEmpty then db.options
      else db.options.filter (fun o' => !((questionIdsOf db vids).contains o'.question_id)) := by
  rw [cascadeVersionsBranch]
  simp only [stageQuestions_options, stageSubs_options, stageSubs_questions, questionIdsOf]

theorem branch_submissions (db : DB) (vids : List String) :
    (cascadeVersionsBranch db vids).1.submissions =
      if (submissionIdsOf db vids).isEmpty then db.submissions
      else db.submissions.filter (fun s => !((submissionIdsOf db vids).contains s.id)) := by
  rw [cascadeVersionsBranch]
  simp only [stageQuestions_submissions, stageSubs_submissions, submissionIdsOf]

theorem branch_answers (db : DB) (vids : List String) :
    (cascadeVersionsBranch db vids).1.answers =
      if (submissionIdsOf db vids).isEmpty then db.answers
      else db.answers.filter
        (fun a => !((submissionIdsOf db vids).contains a.submission_id)) := by
  rw [cascadeVersionsBranch]
  simp only [stageQuestions_answers, stageSubs_answers, submissionIdsOf]

theorem branch_trace (db : DB) (vids : List String) :
    (cascadeVersionsBranch db vids).2 =
      (if (submissionIdsOf db vids).isEmpty then []
       else [(TableName.answersT, submissionIdsOf db vids),
             (TableName.submissionsT, submissionIdsOf db vids)]) ++
      (if (questionIdsOf db vids).isEmpty then []
       else [(TableName.optionsT, questionIdsOf db vids),
             (TableName.questionsT, questionIdsOf db vids)]) ++
      [(TableName.testLinksT, vids), (TableName.testVersionsT, vids)] := by
  rw [cascadeVersionsBranch]
  simp only [stageQuestions_trace, stageSubs_trace, stageSubs_questions,
    submissionIdsOf, questionIdsOf]

/-- Any version owned by the test has its id among the fetched version ids. -/
theorem mem_versionIdsOf (db : DB) (t : String) (v : VersionRow)
    (hv : v ∈ db.test_versions) (ht : v.test_id = t) : v.id ∈ versionIdsOf db t :=
  List.mem_map.mpr ⟨v, List.mem_filter.mpr ⟨hv, by simp [ht]⟩, rfl⟩

theorem versionIdsOf_not_isEmpty (db : DB) (t : String) (v : VersionRow)
    (hv : v ∈ db.test_versions) (ht : v.test_id = t) :
    ¬(versionIdsOf db t).isEmpty = true := by
  intro he
  rw [List.isEmpty_iff] at he
  have := mem_versionIdsOf db t v hv ht
  rw [he] at this
  cases this

theorem mem_questionIdsOf (db : DB) (vids : List String) (q : QuestionRow)
    (hq : q ∈ db.questions) (hv : q.test_version_id ∈ vids) :
    q.id ∈ questionIdsOf db vids :=
  List.mem_map.mpr ⟨q, List.mem_filter.mpr
    ⟨hq, List.elem_eq_true_of_mem hv⟩, rfl⟩

theorem mem_submissionIdsOf (db : DB) (vids : List String) (s : SubmissionRow)
    (hs : s ∈ db.submissions) (hv : s.test_version_id ∈ vids) :
    s.id ∈ submissionIdsOf db vids :=
  List.mem_map.mpr ⟨s, List.mem_filter.mpr
    ⟨hs, List.elem_eq_true_of_mem hv⟩, rfl⟩

/-- Claim C1: the cascade leaves no row of the deleted Test behind — the Test
itself, its versions, their links, questions, options, submissions and
answers are all absent — while the executed delete steps follow the strict
dependency order (answers, submissions, options, questions, links, versions,
test), every executed step has a nonempty target id set (empty ones are
skipped), and the Test delete itself is always the last step. -/
theorem cascadeDelete_spec (db : DB) (t : String) :
    (∀ tr ∈ (cascadeDelete db t).1.tests, tr.id ≠ t) ∧
    (∀ v ∈ (cascadeDelete db t).1.test_versions, v.test_id ≠ t) ∧
    (∀ v ∈ db.test_versions, v.test_id = t →
      ∀ l ∈ (cascadeDelete db t).1.test_links, l.test_version_id ≠ v.id) ∧
    (∀ v ∈ db.test_versions, v.test_id = t →
      ∀ q ∈ (cascadeDelete db t).1.questions, q.test_version_id ≠ v.id) ∧
    (∀ v ∈ db.test_versions, v.test_id = t →
      ∀ qq ∈ db.questions, qq.test_version_id = v.id →
        ∀ o ∈ (cascadeDelete db t).1.options, o.question_id ≠ qq.id) ∧
    (∀ v ∈ db.test_versions, v.test_id = t →
      ∀ s ∈ (cascadeDelete db t).1.submissions, s.test_version_id ≠ v.id) ∧
    (∀ v ∈ db.test_versions, v.test_id = t →
      ∀ ss ∈ db.submissions, ss.test_version_id = v.id →
        ∀ a ∈ (cascadeDelete db t).1.answers, a.submission_id ≠ ss.id) ∧
    ((cascadeDelete db t).2.map (fun st => tableRank st.1)).Pairwise (· < ·) ∧
    (∀ st ∈ (cascadeDelete db t).2, st.2 ≠ []) ∧
    (cascadeDelete db t).2.getLast? = some (TableName.testsT, [t]) := by
  have hmid1 : (cascadeDelete db t).1.tests =
      (cascadeMid db t).1.tests.filter (fun tr => !(tr.id == t)) := rfl
  refine ⟨?_, ?_, ?_, ?_, ?_, ?_, ?_, ?_, ?_, ?_⟩
  · intro tr htr
    rw [hmid1] at htr
    have h2 := (List.mem_filter.mp htr).2
    simpa using h2
  · intro v hv hvt
    have hv' : v ∈ (cascadeMid db t).1.test_versions := hv
    by_cases hver : (versionIdsOf db t).isEmpty
    · rw [cascadeMid, if_pos hver] at hv'
      exact versionIdsOf_not_isEmpty db t v hv' hvt hver
    · rw [cascadeMid, if_neg hver, branch_test_versions] at hv'
      have h2 := (List.mem_filter.mp hv')
      have hvm := mem_versionIdsOf db t v h2.1 hvt
      have hc := h2.2
      simp only [Bool.not_eq_true'] at hc
      exact (by simpa using hc : v.id ∉ versionIdsOf db t) hvm
  · intro v hv hvt l hl he
    have hver := versionIdsOf_not_isEmpty db t v hv hvt
    have hl' : l ∈ (cascadeMid db t).1.test_links := hl
    rw [cascadeMid, if_neg hver, branch_test_links] at hl'
    have h2 := (List.mem_filter.mp hl').2
    simp only [Bool.not_eq_true'] at h2
    rw [he] at h2
    exact (by simpa using h2 : v.id ∉ versionIdsOf db t) (mem_versionIdsOf db t v hv hvt)
  · intro v hv hvt q hq he
    have hver := versionIdsOf_not_isEmpty db t v hv hvt
    have hq' : q ∈ (cascadeMid db t).1.questions := hq
    rw [cascadeMid, if_neg hver, branch_questions] at hq'
    by_cases hqe : (questionIdsOf db (versionIdsOf db t)).isEmpty
    · rw [if_pos hqe] at hq'
      have hqm := mem_questionIdsOf db (versionIdsOf db t) q hq'
        (he ▸ mem_versionIdsOf db t v hv hvt)
      rw [List.isEmpty_iff] at hqe
      rw [hqe] at hqm
      cases hqm
    · rw [if_neg hqe] at hq'
      have h2 := (List.mem_filter.mp hq')
      have hqm := mem_questionIdsOf db (versionIdsOf db t) q h2.1
        (he ▸ mem_versionIdsOf db t v hv hvt)
      have hc := h2.2
      simp only [Bool.not_eq_true'] at hc
      exact (by simpa using hc : q.id ∉ questionIdsOf db (versionIdsOf db t)) hqm
  · intro v hv hvt qq hqq hqqv o ho he
    have hver := versionIdsOf_not_isEmpty db t v hv hvt
    have hqm := mem_questionIdsOf db (versionIdsOf db t) qq hqq
      (hqqv ▸ mem_versionIdsOf db t v hv hvt)
    have hqe : ¬(questionIdsOf db (versionIdsOf db t)).isEmpty = true := by
      intro hemp
      rw [List.isEmpty_iff] at hemp
      rw [hemp] at hqm
      cases hqm
    have ho' : o ∈ (cascadeMid db t).1.options := ho
    rw [cascadeMid, if_neg hver, branch_options, if_neg hqe] at ho'
    have h2 := (List.mem_filter.mp ho').2
    simp only [Bool.not_eq_true'] at h2
    rw [he] at h2
    exact (by simpa using h2 : qq.id ∉ questionIdsOf db (versionIdsOf db t)) hqm
  · intro v hv hvt s hs he
    have hver := versionIdsOf_not_isEmpty db t v hv hvt
    have hs' : s ∈ (cascadeMid db t).1.submissions := hs
    rw [cascadeMid, if_neg hver, branch_submissions] at hs'
    by_cases hse : (submissionIdsOf db (versionIdsOf db t)).isEmpty
    · rw [if_pos hse] at hs'
      have hsm := mem_submissionIdsOf db (versionIdsOf db t) s hs'
        (he ▸ mem_versionIdsOf db t v hv hvt)
      rw [List.isEmpty_iff] at hse
      rw [hse] at hsm
      cases hsm
    · rw [if_neg hse] at hs'
      have h2 := (List.mem_filter.mp hs')
      have hsm := mem_submissionIdsOf db (versionIdsOf db t) s h2.1
        (he ▸ mem_versionIdsOf db t v hv hvt)
      have hc := h2.2
      simp only [Bool.not_eq_true'] at hc
      exact (by simpa using hc : s.id ∉ submissionIdsOf db (versionIdsOf db t)) hsm
  · intro v hv hvt ss hss hssv a ha he
    have hver := versionIdsOf_not_isEmpty db t v hv hvt
    have hsm := mem_submissionIdsOf db (versionIdsOf db t) ss hss
      (hssv ▸ mem_versionIdsOf db t v hv hvt)
    have hse : ¬(submissionIdsOf db (versionIdsOf db t)).isEmpty = true := by
      intro hemp
      rw [List.isEmpty_iff] at hemp
      rw [hemp] at hsm
      cases hsm
    have ha' : a ∈ (cascadeMid db t).1.answers := ha
    rw [cascadeMid, if_neg hver, branch_answers, if_neg hse] at ha'
    have h2 := (List.mem_filter.mp ha').2
    simp only [Bool.not_eq_true'] at h2
    rw [he] at h2
    exact (by simpa using h2 : ss.id ∉ submissionIdsOf db (versionIdsOf db t)) hsm
  · have htr : (cascadeDelete db t).2 =
        (cascadeMid db t).2 ++ [(TableName.testsT, [t])] := rfl
    rw [htr]
    by_cases hver : (versionIdsOf db t).isEmpty
    · rw [cascadeMid, if_pos hver]
      simp only [List.nil_append, List.map_cons, List.map_nil]
      decide
    · rw [cascadeMid, if_neg hver, branch_trace]
      by_cases hse : (submissionIdsOf db (versionIdsOf db t)).isEmpty <;>
        by_cases hqe : (questionIdsOf db (versionIdsOf db t)).isEmpty
      · rw [if_pos hse, if_pos hqe]
        simp only [List.nil_append, List.map_append, List.map_cons, List.map_nil, tableRank]
        decide
      · rw [if_pos hse, if_neg hqe]
        simp only [List.nil_append, List.map_append, List.map_cons, List.map_nil, tableRank]
        decide
      · rw [if_neg hse, if_pos hqe]
        simp only [List.append_nil, List.nil_append, List.map_append, List.map_cons,
          List.map_nil, tableRank]
        decide
      · rw [if_neg hse, if_neg hqe]
        simp only [List.map_append, List.map_cons, List.map_nil, tableRank]
        decide
  · have htr : (cascadeDelete db t).2 =
        (cascadeMid db t).2 ++ [(TableName.testsT, [t])] := rfl
    intro st hst
    rw [htr] at hst
    by_cases hver : (versionIdsOf db t).isEmpty
    · rw [cascadeMid, if_pos hver] at hst
      simp only [List.nil_append, List.mem_singleton] at hst
      rw [hst]
      exact List.cons_ne_nil t []
    · have hvne : versionIdsOf db t ≠ [] := by
        intro hemp
        exact hver (List.isEmpty_iff.mpr hemp)
      rw [cascadeMid, if_neg hver, branch_trace] at hst
      by_cases hse : (submissionIdsOf db (versionIdsOf db t)).isEmpty <;>
        by_cases hqe : (questionIdsOf db (versionIdsOf db t)).isEmpty
      · rw [if_pos hse, if_pos hqe] at hst
        simp only [List.nil_append, List.mem_append, List.mem_cons, List.mem_singleton,
          List.not_mem_nil, or_false, false_or, or_assoc] at hst
        rcases hst with rfl | rfl | rfl
        · exact hvne
        · exact hvne
        · exact List.cons_ne_nil t []
      · have hqne : questionIdsOf db (versionIdsOf db t) ≠ [] := by
          intro hemp
          exact hqe (List.isEmpty_iff.mpr hemp)
        rw [if_pos hse, if_neg hqe] at hst
        simp only [List.nil_append, List.mem_append, List.mem_cons, List.mem_singleton,
          List.not_mem_nil, or_false, false_or, or_assoc] at hst
        rcases hst with rfl | rfl | rfl | rfl | rfl
        · exact hqne
        · exact hqne
        · exact hvne
        · exact hvne
        · exact List.cons_ne_nil t []
      · have hsne : submissionIdsOf db (versionIdsOf db t) ≠ [] := by
          intro hemp
          exact hse (List.isEmpty_iff.mpr hemp)
        rw [if_neg hse, if_pos hqe] at hst
        simp only [List.append_nil, List.nil_append, List.mem_append, List.mem_cons,
          List.mem_singleton, List.not_mem_nil, or_false, false_or, or_assoc] at hst
        rcases hst with rfl | rfl | rfl | rfl | rfl
        · exact hsne
        · exact hsne
        · exact hvne
        · exact hvne
        · exact List.cons_ne_nil t []
      · have hsne : submissionIdsOf db (versionIdsOf db t) ≠ [] := by
          intro hemp
          exact hse (List.isEmpty_iff.mpr hemp)
        have hqne : questionIdsOf db (versionIdsOf db t) ≠ [] := by
          intro hemp
          exact hqe (List.isEmpty_iff.mpr hemp)
        rw [if_neg hse, if_neg hqe] at hst
        simp only [List.mem_append, List.mem_cons, List.mem_singleton,
          List.not_mem_nil, or_false, false_or, or_assoc] at hst
        rcases hst with rfl | rfl | rfl | rfl | rfl | rfl | rfl
        · exact hsne
        · exact hsne
        · exact hqne
        · exact hqne
        · exact hvne
        · exact hvne
        · exact List.cons_ne_nil t []
  · exact List.getLast?_concat _

/-- Fixture: the test to be cascade-deleted. -/
def fullTest : TestRow := { id := "t1", slug := "t-1", title := "T", description := none }

/-- Fixture: its only version. -/
def fullVersion : VersionRow :=
  { id := "v1", test_id := "t1", version := 1, published_at := some 10 }

/-- Fixture: a question of that version. -/
def fullQuestion : QuestionRow :=
  { id := "qq1", test_version_id := "v1", text := "Q", kind := QuestionKind.SINGLE,
    ord := some 1 }

/-- Fixture: an option of that question. -/
def fullOption : OptionRow := { id := "oo1", question_id := "qq1", text := "A", ord := some 1 }

/-- Fixture: the version's public link. -/
def fullLink : TestLinkRow :=
  { id := "ll1", test_version_id := "v1", public_id := "pp1", is_active := true }

/-- Fixture: a submission against the version. -/
def fullSubmission : SubmissionRow :=
  { id := "sub1", test_version_id := "v1", participant := "P", created_at := 5 }

/-- Fixture: the submission's answer. -/
def fullAnswer : AnswerRow :=
  { submission_id := "sub1", question_id := "qq1", option_id := some "oo1", free_text := none }

/-- Fixture: store with the full ownership chain of one test. -/
def dbFull : DB :=
  { tests := [fullTest], test_versions := [fullVersion], questions := [fullQuestion],
    options := [fullOption], test_links := [fullLink], submissions := [fullSubmission],
    answers := [fullAnswer] }

/-- Witness for `cascadeDelete_spec`: after deleting the test, its version and
the deepest dependent row (the answer) are gone. -/
theorem cascadeDelete_spec_witness :
    fullVersion ∉ (cascadeDelete dbFull "t1").1.test_versions ∧
    fullAnswer ∉ (cascadeDelete dbFull "t1").1.answers := by
  constructor
  · intro hmem
    exact (cascadeDelete_spec dbFull "t1").2.1 fullVersion hmem rfl
  · intro hmem
    exact (cascadeDelete_spec dbFull "t1").2.2.2.2.2.2.1 fullVersion (by decide) rfl
      fullSubmission (by decide) rfl fullAnswer hmem rfl

end KidTests
